import Mathlib

/-!
Shallow embedding of the TrueRandom library (src/truerandom.h) and proofs
about its buffer-fill and single-word generation routines.

The hardware instruction (RDRAND / RNDR) is modelled as an oracle: a single
attempt either declines (`none`) or produces a word (`some v`).  A run of
`truernd_fill` consumes a stream of such attempt outcomes, one per call to
`truernd_get64`; the stream is indexed by the call number.  Buffers are
modelled as the list of bytes written, in write order, so that both the
final contents and the number of hardware calls are observable.
-/

namespace TrueRandom

/-- Configuration constant `TRUERND_MAX_RETRIES` (truerandom.h line 23),
default 10: the bound on consecutive failed `truernd_get64` calls inside one
chunk of `truernd_fill`. -/
def TRUERND_MAX_RETRIES : Nat := 10

/-- A stream of `truernd_get64` attempt outcomes: `gen i = none` means the
i-th hardware call declined (returned -1), `gen i = some v` means it
succeeded and produced the 64-bit word `v`. -/
abbrev Gen := Nat → Option Nat

/-- The inner retry loop of `truernd_fill` (truerandom.h lines 397-400 and
410-412): `int retries = 0; while (truernd_get64(&val) != 0) { if (++retries
>= TRUERND_MAX_RETRIES) return -1; }`.  The argument `budget` is the number
of calls still allowed, i.e. `TRUERND_MAX_RETRIES - retries` at loop entry;
the result is the word obtained (`none` when the budget was exhausted by
`budget` consecutive failures) together with the call index after the last
call made. -/
def retryLoop (gen : Gen) : Nat → Nat → Option Nat × Nat
  | 0, idx => (none, idx)
  | budget + 1, idx =>
    match gen idx with
    | some w => (some w, idx + 1)
    | none => retryLoop gen budget (idx + 1)

/-- The byte-extraction loop of `truernd_fill` (lines 401-403 and 414-416):
`for (i = 0; i < n; i++) *ptr++ = (uint8_t)(val >> (i * 8));`.  Produces the
`n` bytes written, in write order. -/
def extractBytes (val n : Nat) : List Nat :=
  (List.range n).map fun i => (val >>> (i * 8)) % 256

/-- The chunking loops of `truernd_fill` (lines 394-419): the `while (len >=
8)` loop followed by the `if (len > 0)` partial chunk.  State: remaining
length `len`, index `idx` of the next generator call, bytes written so far
`acc`.  Result: (C return value, bytes written, total generator calls
made). -/
def fillLoop (gen : Gen) (len idx : Nat) (acc : List Nat) : Int × List Nat × Nat :=
  if _h : 8 ≤ len then
    match retryLoop gen TRUERND_MAX_RETRIES idx with
    | (none, idx2) => (-1, acc, idx2)
    | (some w, idx2) => fillLoop gen (len - 8) idx2 (acc ++ extractBytes w 8)
  else if len = 0 then
    (0, acc, idx)
  else
    match retryLoop gen TRUERND_MAX_RETRIES idx with
    | (none, idx2) => (-1, acc, idx2)
    | (some w, idx2) => (0, acc ++ extractBytes w len, idx2)
termination_by len
decreasing_by omega

/-- `truernd_fill(buf, len)` (truerandom.h lines 388-420).  `bufNull` models
`buf == NULL`; `len` is the requested length in bytes; `gen` is the stream
of `truernd_get64` outcomes.  Result: (return value, bytes written to the
destination in order, number of `truernd_get64` calls made). -/
def truernd_fill (bufNull : Bool) (len : Nat) (gen : Gen) : Int × List Nat × Nat :=
  if bufNull || len == 0 then (-1, [], 0)
  else fillLoop gen len 0 []

/-- `truernd_get32(out)` (truerandom.h lines 170-191, x86; 239-255, ARM64):
one hardware attempt; on success stores the low 32 bits at `*out` and
returns 0; on a null pointer or a hardware decline returns -1 and leaves
memory untouched.  `mem` is the contents of `*out`; the result pairs the
return value with the new contents. -/
def truernd_get32 (outNull : Bool) (hw : Option Nat) (mem : Nat) : Int × Nat :=
  if outNull then (-1, mem)
  else
    match hw with
    | none => (-1, mem)
    | some v => (0, v % 2 ^ 32)

/-- `truernd_get64(out)` (truerandom.h lines 198-219, x86; 258-275, ARM64):
as `truernd_get32` but stores the full 64-bit word. -/
def truernd_get64 (outNull : Bool) (hw : Option Nat) (mem : Nat) : Int × Nat :=
  if outNull then (-1, mem)
  else
    match hw with
    | none => (-1, mem)
    | some v => (0, v % 2 ^ 64)

/-- `truernd_gen32()` (truerandom.h lines 134-145): one hardware attempt;
returns the 32-bit value on success and 0 on failure. -/
def truernd_gen32 (hw : Option Nat) : Nat :=
  match hw with
  | none => 0
  | some v => v % 2 ^ 32

/-- `truernd_gen64()` (truerandom.h lines 152-163): one hardware attempt;
returns the 64-bit value on success and 0 on failure. -/
def truernd_gen64 (hw : Option Nat) : Nat :=
  match hw with
  | none => 0
  | some v => v % 2 ^ 64

/-- `truernd_get64` on 32-bit ARM (truerandom.h lines 321-327): RNDR is
absent, so the function unconditionally returns -1, touching neither memory
nor hardware. -/
def truernd_get64_arm32 (_outNull : Bool) (mem : Nat) : Int × Nat :=
  (-1, mem)

/-- The 32-bit-ARM `truernd_get64` viewed as a word source for
`truernd_fill`: every call declines. -/
def arm32Gen : Gen := fun _ => none

/-- Number of 64-bit words a successful fill of `len` bytes consumes: one
per full 8-byte chunk plus one for a final partial chunk. -/
def numWords (len : Nat) : Nat :=
  len / 8 + if len % 8 = 0 then 0 else 1

/-- Expected destination contents when filling `len` bytes starting at call
index `idx` with a never-failing generator whose i-th call yields `w i`:
byte `k` is byte `k % 8` of word `idx + k / 8`. -/
def fillBytes (w : Nat → Nat) (idx len : Nat) : List Nat :=
  (List.range len).map fun k => (w (idx + k / 8) >>> (k % 8 * 8)) % 256

/-! Basic lemmas about the retry loop and the expected buffer contents. -/

theorem retryLoop_head_some (gen : Gen) (b idx w : Nat) (h : gen idx = some w) :
    retryLoop gen (b + 1) idx = (some w, idx + 1) := by
  simp [retryLoop, h]

theorem retryLoop_all_fail (gen : Gen) :
    ∀ b idx, (∀ j, j < b → gen (idx + j) = none) →
      retryLoop gen b idx = (none, idx + b) := by
  intro b
  induction b with
  | zero => intro idx _; simp [retryLoop]
  | succ n ih =>
    intro idx h
    have h0 : gen idx = none := by simpa using h 0 (Nat.succ_pos n)
    have hrec : retryLoop gen n (idx + 1) = (none, idx + 1 + n) := by
      refine ih (idx + 1) fun j hj => ?_
      have he : idx + 1 + j = idx + (j + 1) := by omega
      rw [he]; exact h (j + 1) (by omega)
    have hstep : retryLoop gen (n + 1) idx = retryLoop gen n (idx + 1) := by
      simp [retryLoop, h0]
    rw [hstep, hrec]
    congr 1
    omega

theorem retryLoop_wins (gen : Gen) :
    ∀ b idx, (∃ j, j < b ∧ (gen (idx + j)).isSome) →
      ∃ w j, j < b ∧ retryLoop gen b idx = (some w, idx + j + 1) := by
  intro b
  induction b with
  | zero => rintro idx ⟨j, hj, _⟩; omega
  | succ n ih =>
    rintro idx ⟨j, hj, hsome⟩
    cases hgen : gen idx with
    | some w =>
      exact ⟨w, 0, Nat.succ_pos n, by simp [retryLoop, hgen]⟩
    | none =>
      have hj0 : j ≠ 0 := by
        intro h0
        rw [h0] at hsome
        simp [hgen] at hsome
      obtain ⟨w, j', hj', heq⟩ := ih (idx + 1) ⟨j - 1, by omega, by
        have he : idx + 1 + (j - 1) = idx + j := by omega
        rw [he]; exact hsome⟩
      refine ⟨w, j' + 1, by omega, ?_⟩
      have hstep : retryLoop gen (n + 1) idx = retryLoop gen n (idx + 1) := by
        simp [retryLoop, hgen]
      rw [hstep, heq]
      congr 1
      omega

theorem fillBytes_nil (w : Nat → Nat) (idx : Nat) : fillBytes w idx 0 = [] := rfl

theorem fillBytes_small (w : Nat → Nat) (idx len : Nat) (h : len ≤ 8) :
    fillBytes w idx len = extractBytes (w idx) len := by
  unfold fillBytes extractBytes
  refine List.map_congr_left fun k hk => ?_
  rw [List.mem_range] at hk
  have hk8 : k < 8 := by omega
  rw [Nat.div_eq_of_lt hk8, Nat.mod_eq_of_lt hk8, Nat.add_zero]

theorem fillBytes_split (w : Nat → Nat) (idx m : Nat) :
    fillBytes w idx (8 + m) = extractBytes (w idx) 8 ++ fillBytes w (idx + 1) m := by
  unfold fillBytes extractBytes
  rw [List.range_add, List.map_append, List.map_map]
  congr 1
  refine List.map_congr_left fun k _ => ?_
  have hc : ((fun k => w (idx + k / 8) >>> (k % 8 * 8) % 256) ∘ fun x => 8 + x) k
      = w (idx + (8 + k) / 8) >>> ((8 + k) % 8 * 8) % 256 := rfl
  rw [hc]
  have h1 : (8 + k) / 8 = k / 8 + 1 := by omega
  have h2 : (8 + k) % 8 = k % 8 := by omega
  rw [h1, h2]
  have h3 : idx + (k / 8 + 1) = idx + 1 + k / 8 := by omega
  rw [h3]

theorem fillBytes_length (w : Nat → Nat) (idx len : Nat) :
    (fillBytes w idx len).length = len := by
  unfold fillBytes
  rw [List.length_map, List.length_range]

theorem fillBytes_getD (w : Nat → Nat) (idx len k : Nat) (hk : k < len) :
    (fillBytes w idx len).getD k 0 = (w (idx + k / 8) >>> (k % 8 * 8)) % 256 := by
  unfold fillBytes
  rw [List.getD_eq_getElem?_getD, List.getElem?_map, List.getElem?_range hk]
  rfl

theorem extractBytes_length (val n : Nat) : (extractBytes val n).length = n := by
  unfold extractBytes
  rw [List.length_map, List.length_range]

theorem numWords_sub8 (len : Nat) (h : 8 ≤ len) :
    numWords len = numWords (len - 8) + 1 := by
  unfold numWords
  have h1 : (len - 8) % 8 = len % 8 := by omega
  have h2 : len / 8 = (len - 8) / 8 + 1 := by omega
  rw [h1, h2]
  by_cases hc : len % 8 = 0 <;> simp [hc]

/-! Behaviour of the chunking loop under the three generator regimes the
claims are about: never failing, a success inside every budget window, and
a run of successes followed by permanent failure. -/

theorem fillLoop_neverfail (gen : Gen) (w : Nat → Nat)
    (hgen : ∀ i, gen i = some (w i)) :
    ∀ len idx acc, fillLoop gen len idx acc =
      (0, acc ++ fillBytes w idx len, idx + numWords len) := by
  have hT : TRUERND_MAX_RETRIES = 9 + 1 := rfl
  have hretry : ∀ idx, retryLoop gen TRUERND_MAX_RETRIES idx = (some (w idx), idx + 1) := by
    intro idx
    rw [hT]
    exact retryLoop_head_some gen 9 idx (w idx) (hgen idx)
  intro len idx acc
  induction len, idx, acc using fillLoop.induct gen with
  | case1 len idx acc h idx2 hnone =>
    rw [hretry idx] at hnone
    cases hnone
  | case2 len idx acc h w' idx2 hsome ih =>
    rw [hretry idx] at hsome
    simp only [Prod.mk.injEq, Option.some.injEq] at hsome
    obtain ⟨hw, hidx⟩ := hsome
    subst hw
    subst hidx
    rw [fillLoop, dif_pos h, hretry idx]
    show fillLoop gen (len - 8) (idx + 1) (acc ++ extractBytes (w idx) 8)
      = (0, acc ++ fillBytes w idx len, idx + numWords len)
    have hsplit : fillBytes w idx len
        = extractBytes (w idx) 8 ++ fillBytes w (idx + 1) (len - 8) := by
      have he : len = 8 + (len - 8) := by omega
      conv_lhs => rw [he]
      rw [fillBytes_split]
    rw [ih, hsplit, numWords_sub8 len h]
    simp only [Prod.mk.injEq]
    exact ⟨trivial, by rw [List.append_assoc], by omega⟩
  | case3 idx acc h =>
    rw [fillLoop]
    simp [fillBytes_nil, numWords]
  | case4 len idx acc h hne idx2 hnone =>
    rw [hretry idx] at hnone
    cases hnone
  | case5 len idx acc h hne w' idx2 hsome =>
    rw [hretry idx] at hsome
    simp only [Prod.mk.injEq, Option.some.injEq] at hsome
    obtain ⟨hw, hidx⟩ := hsome
    subst hw
    subst hidx
    rw [fillLoop, dif_neg h, if_neg hne, hretry idx]
    show (0, acc ++ extractBytes (w idx) len, idx + 1)
      = (0, acc ++ fillBytes w idx len, idx + numWords len)
    have hnw : numWords len = 1 := by
      unfold numWords
      have hd : len / 8 = 0 := by omega
      have hm : ¬len % 8 = 0 := by omega
      rw [hd, if_neg hm]
    rw [fillBytes_small w idx len (by omega), hnw]

theorem fillLoop_ret_zero (gen : Gen)
    (hgen : ∀ idx, ∃ j, j < TRUERND_MAX_RETRIES ∧ (gen (idx + j)).isSome) :
    ∀ len idx acc, (fillLoop gen len idx acc).1 = 0 := by
  intro len idx acc
  induction len, idx, acc using fillLoop.induct gen with
  | case1 len idx acc h idx2 hnone =>
    obtain ⟨w, j, hj, heq⟩ := retryLoop_wins gen TRUERND_MAX_RETRIES idx (hgen idx)
    rw [heq] at hnone
    cases hnone
  | case2 len idx acc h w' idx2 hsome ih =>
    rw [fillLoop, dif_pos h, hsome]
    exact ih
  | case3 idx acc h =>
    rw [fillLoop]
    norm_num
  | case4 len idx acc h hne idx2 hnone =>
    obtain ⟨w, j, hj, heq⟩ := retryLoop_wins gen TRUERND_MAX_RETRIES idx (hgen idx)
    rw [heq] at hnone
    cases hnone
  | case5 len idx acc h hne w' idx2 hsome =>
    rw [fillLoop, dif_neg h, if_neg hne, hsome]

theorem fillLoop_budget_exhausted (gen : Gen) (w : Nat → Nat) (k : Nat)
    (hsucc : ∀ i, i < k → gen i = some (w i))
    (hfail : ∀ i, k ≤ i → gen i = none) :
    ∀ len idx acc, idx ≤ k → 8 * (k - idx) < len →
      fillLoop gen len idx acc =
        (-1, acc ++ fillBytes w idx (8 * (k - idx)), k + TRUERND_MAX_RETRIES) := by
  have hT : TRUERND_MAX_RETRIES = 9 + 1 := rfl
  have hfull : ∀ idx, idx < k →
      retryLoop gen TRUERND_MAX_RETRIES idx = (some (w idx), idx + 1) := by
    intro idx hidx
    rw [hT]
    exact retryLoop_head_some gen 9 idx (w idx) (hsucc idx hidx)
  have hdead : retryLoop gen TRUERND_MAX_RETRIES k = (none, k + TRUERND_MAX_RETRIES) :=
    retryLoop_all_fail gen TRUERND_MAX_RETRIES k (fun j _ => hfail (k + j) (by omega))
  intro len idx acc
  induction len, idx, acc using fillLoop.induct gen with
  | case1 len idx acc h idx2 hnone =>
    intro hik hlt
    rcases Nat.lt_or_ge idx k with hix | hix
    · rw [hfull idx hix] at hnone
      cases hnone
    · have hke : idx = k := by omega
      subst hke
      rw [fillLoop, dif_pos h, hdead]
      show (-1, acc, idx + TRUERND_MAX_RETRIES)
        = (-1, acc ++ fillBytes w idx (8 * (idx - idx)), idx + TRUERND_MAX_RETRIES)
      rw [Nat.sub_self, Nat.mul_zero, fillBytes_nil, List.append_nil]
  | case2 len idx acc h w' idx2 hsome ih =>
    intro hik hlt
    rcases Nat.lt_or_ge idx k with hix | hix
    · rw [hfull idx hix] at hsome
      simp only [Prod.mk.injEq, Option.some.injEq] at hsome
      obtain ⟨hw, hidx⟩ := hsome
      subst hw
      subst hidx
      rw [fillLoop, dif_pos h, hfull idx hix]
      show fillLoop gen (len - 8) (idx + 1) (acc ++ extractBytes (w idx) 8)
        = (-1, acc ++ fillBytes w idx (8 * (k - idx)), k + TRUERND_MAX_RETRIES)
      rw [ih (by omega) (by omega)]
      have he : 8 * (k - idx) = 8 + 8 * (k - (idx + 1)) := by omega
      rw [he, fillBytes_split, List.append_assoc]
    · have hke : idx = k := by omega
      subst hke
      rw [hdead] at hsome
      cases hsome
  | case3 idx acc h =>
    intro hik hlt
    omega
  | case4 len idx acc h hne idx2 hnone =>
    intro hik hlt
    have hke : idx = k := by omega
    subst hke
    rw [fillLoop, dif_neg h, if_neg hne, hdead]
    show (-1, acc, idx + TRUERND_MAX_RETRIES)
      = (-1, acc ++ fillBytes w idx (8 * (idx - idx)), idx + TRUERND_MAX_RETRIES)
    rw [Nat.sub_self, Nat.mul_zero, fillBytes_nil, List.append_nil]
  | case5 len idx acc h hne w' idx2 hsome =>
    intro hik hlt
    have hke : idx = k := by omega
    subst hke
    rw [hdead] at hsome
    cases hsome

theorem truernd_fill_pos (len : Nat) (h : 1 ≤ len) (gen : Gen) :
    truernd_fill false len gen = fillLoop gen len 0 [] := by
  have hne : (len == 0) = false := by
    simp only [beq_eq_false_iff_ne, ne_eq]
    omega
  simp [truernd_fill, hne]

/-! The claims. -/

/-- C1 counterexample: with a buffer of length 8 and a generator that declines
on exactly the first `TRUERND_MAX_RETRIES = 10` attempts and succeeds on every
later attempt, `truernd_fill` returns -1, not 0: the loop gives up on the 10th
consecutive failure without making the 11th (would-be successful) call. -/
theorem fill_budget_failures_then_success_still_fails :
    (truernd_fill false 8 (fun i => if i < TRUERND_MAX_RETRIES then none else some 1)).1 = -1 ∧
    ¬(truernd_fill false 8 (fun i => if i < TRUERND_MAX_RETRIES then none else some 1)).1 = 0 := by
  constructor <;> norm_num [truernd_fill, fillLoop, retryLoop, TRUERND_MAX_RETRIES]

/-- C1 (amended): for every buffer of length at least 8 and a 64-bit word
generator that fails exactly `TRUERND_MAX_RETRIES - 1 = 9` consecutive times
and then succeeds on every later attempt, `truernd_fill` succeeds (returns 0):
the retry budget is exhausted as soon as consecutive failures reach
`TRUERND_MAX_RETRIES`, so at most 9 consecutive failures are tolerated. -/
theorem fill_succeeds_after_nine_failures (len : Nat) (hlen : 8 ≤ len) (w : Nat → Nat) :
    (truernd_fill false len
      (fun i => if i < TRUERND_MAX_RETRIES - 1 then none else some (w i))).1 = 0 := by
  rw [truernd_fill_pos len (by omega)]
  refine fillLoop_ret_zero _ ?_ len 0 []
  intro idx
  by_cases h9 : TRUERND_MAX_RETRIES - 1 ≤ idx
  · exact ⟨0, by decide, by simp [Nat.add_zero, Nat.not_lt.mpr h9]⟩
  · refine ⟨TRUERND_MAX_RETRIES - 1 - idx, by omega, ?_⟩
    have he : idx + (TRUERND_MAX_RETRIES - 1 - idx) = TRUERND_MAX_RETRIES - 1 := by omega
    simp [he]

theorem fill_succeeds_after_nine_failures_witness :
    (truernd_fill false 8
      (fun i => if i < TRUERND_MAX_RETRIES - 1 then none else some 0)).1 = 0 :=
  fill_succeeds_after_nine_failures 8 (by norm_num) fun _ => 0

/-- C2: for every length L ≥ 1 and a 64-bit word generator that never fails,
`truernd_fill` returns 0 and writes exactly L bytes, the byte at offset k being
`(word_for_chunk (k / 8) >>> (8 * (k % 8))) % 256` where `word_for_chunk j` is
the j-th word the generator produced; the layout is fixed by this formula,
independent of any host byte order. -/
theorem fill_neverfail_layout (L : Nat) (hL : 1 ≤ L) (w : Nat → Nat) :
    (truernd_fill false L (fun i => some (w i))).1 = 0 ∧
    (truernd_fill false L (fun i => some (w i))).2.1.length = L ∧
    ∀ k, k < L → (truernd_fill false L (fun i => some (w i))).2.1.getD k 0
      = (w (k / 8) >>> (8 * (k % 8))) % 256 := by
  have hfill : truernd_fill false L (fun i => some (w i))
      = (0, fillBytes w 0 L, 0 + numWords L) := by
    rw [truernd_fill_pos L hL,
      fillLoop_neverfail (fun i => some (w i)) w (fun _ => rfl) L 0 [], List.nil_append]
  refine ⟨by rw [hfill], by rw [hfill]; exact fillBytes_length w 0 L, ?_⟩
  intro k hk
  rw [hfill]
  show (fillBytes w 0 L).getD k 0 = _
  rw [fillBytes_getD w 0 L k hk, Nat.zero_add, Nat.mul_comm (k % 8) 8]

theorem fill_neverfail_layout_witness :
    (truernd_fill false 3 (fun _ => some 511)).1 = 0 ∧
    (truernd_fill false 3 (fun _ => some 511)).2.1.length = 3 ∧
    ∀ k, k < 3 → (truernd_fill false 3 (fun _ => some 511)).2.1.getD k 0
      = ((511 : Nat) >>> (8 * (k % 8))) % 256 :=
  fill_neverfail_layout 3 (by norm_num) fun _ => 511

/-- C3: for every non-empty fill request and a generator that fails
`TRUERND_MAX_RETRIES + 1 = 11` consecutive times, `truernd_fill` returns -1. -/
theorem fill_fails_budget_plus_one (len : Nat) (hlen : 1 ≤ len) (gen : Gen)
    (hgen : ∀ i, i < TRUERND_MAX_RETRIES + 1 → gen i = none) :
    (truernd_fill false len gen).1 = -1 := by
  rw [truernd_fill_pos len hlen]
  have hdead : retryLoop gen TRUERND_MAX_RETRIES 0 = (none, 0 + TRUERND_MAX_RETRIES) :=
    retryLoop_all_fail gen TRUERND_MAX_RETRIES 0 (fun j hj => hgen (0 + j) (by omega))
  by_cases h8 : 8 ≤ len
  · rw [fillLoop, dif_pos h8, hdead]
  · rw [fillLoop, dif_neg h8, if_neg (by omega), hdead]

theorem fill_fails_budget_plus_one_witness :
    (truernd_fill false 1 (fun _ => none)).1 = -1 :=
  fill_fails_budget_plus_one 1 (le_refl 1) (fun _ => none) fun _ _ => rfl

/-- C4: a call of `truernd_fill` with a null buffer pointer or with length 0
returns -1 immediately, makes no generator (hardware) call, and writes no byte
of the destination. -/
theorem fill_rejects_invalid_args (bufNull : Bool) (len : Nat) (gen : Gen)
    (h : bufNull = true ∨ len = 0) :
    truernd_fill bufNull len gen = (-1, [], 0) := by
  unfold truernd_fill
  rcases h with h | h <;> rw [h] <;> simp

theorem fill_rejects_invalid_args_witness :
    truernd_fill true 100 (fun _ => some 7) = (-1, [], 0) ∧
    truernd_fill false 0 (fun _ => some 7) = (-1, [], 0) :=
  ⟨fill_rejects_invalid_args true 100 (fun _ => some 7) (Or.inl rfl),
   fill_rejects_invalid_args false 0 (fun _ => some 7) (Or.inr rfl)⟩

/-- C5: `truernd_get32` and `truernd_get64` write `*out` only on success: with
a null out pointer they return -1 without touching memory, on a hardware
decline they return -1 and leave `*out` unchanged, and on success they return
0 and store the generated word. -/
theorem get_writes_out_only_on_success :
    ∀ (hw : Option Nat) (mem : Nat),
      truernd_get32 true hw mem = (-1, mem) ∧
      truernd_get64 true hw mem = (-1, mem) ∧
      truernd_get32 false none mem = (-1, mem) ∧
      truernd_get64 false none mem = (-1, mem) ∧
      ∀ v, truernd_get32 false (some v) mem = (0, v % 2 ^ 32) ∧
        truernd_get64 false (some v) mem = (0, v % 2 ^ 64) :=
  fun _ _ => ⟨rfl, rfl, rfl, rfl, fun _ => ⟨rfl, rfl⟩⟩

/-- C6 counterexample: on 32-bit ARM `truernd_get64` always declines, and a
`truernd_fill` of 8 bytes then makes `TRUERND_MAX_RETRIES = 10` generator
calls — more than one — before reporting failure, so the fill does retry the
word generator rather than failing fast. -/
theorem fill_arm32_counterexample :
    (truernd_fill false 8 arm32Gen).2.2 = TRUERND_MAX_RETRIES ∧
    1 < (truernd_fill false 8 arm32Gen).2.2 := by
  constructor <;> norm_num [truernd_fill, fillLoop, retryLoop, arm32Gen, TRUERND_MAX_RETRIES]

/-- C6 (amended): on a platform where `truernd_get64` is permanently
unavailable (32-bit ARM), `truernd_fill` with a non-null buffer and positive
length reports failure and writes nothing, but only after calling the word
generator exactly `TRUERND_MAX_RETRIES` times on the first chunk: the
permanent failure is retried like a transient one. -/
theorem fill_arm32_fails_after_budget (len : Nat) (hlen : 1 ≤ len) :
    truernd_fill false len arm32Gen = (-1, [], TRUERND_MAX_RETRIES) := by
  rw [truernd_fill_pos len hlen]
  have hdead : retryLoop arm32Gen TRUERND_MAX_RETRIES 0 = (none, 0 + TRUERND_MAX_RETRIES) :=
    retryLoop_all_fail _ TRUERND_MAX_RETRIES 0 fun _ _ => rfl
  rw [Nat.zero_add] at hdead
  by_cases h8 : 8 ≤ len
  · rw [fillLoop, dif_pos h8, hdead]
  · rw [fillLoop, dif_neg h8, if_neg (by omega), hdead]

theorem fill_arm32_fails_after_budget_witness :
    truernd_fill false 1 arm32Gen = (-1, [], TRUERND_MAX_RETRIES) :=
  fill_arm32_fails_after_budget 1 (le_refl 1)

/-- C7: the retry budget of `truernd_fill` is per-chunk — the
consecutive-failure counter restarts for every chunk — so a generator that,
from any call index, succeeds within `TRUERND_MAX_RETRIES` attempts (every
run of consecutive failures is strictly shorter than the budget) lets a fill
of any positive length succeed, no matter how many failures accumulate in
total across chunks. -/
theorem fill_budget_resets_per_chunk (len : Nat) (hlen : 1 ≤ len) (gen : Gen)
    (hgen : ∀ idx, ∃ j, j < TRUERND_MAX_RETRIES ∧ (gen (idx + j)).isSome) :
    (truernd_fill false len gen).1 = 0 := by
  rw [truernd_fill_pos len hlen]
  exact fillLoop_ret_zero gen hgen len 0 []

theorem fill_budget_resets_per_chunk_witness :
    (truernd_fill false 20 (fun i => if i % 2 = 0 then none else some 5)).1 = 0 :=
  fill_budget_resets_per_chunk 20 (by norm_num) _ (by
    intro idx
    rcases Nat.mod_two_eq_zero_or_one idx with h | h
    · refine ⟨1, by decide, ?_⟩
      have h1 : (idx + 1) % 2 = 1 := by omega
      simp [h1]
    · exact ⟨0, by decide, by simp [h]⟩)

/-- C8: `truernd_gen32` and `truernd_gen64` return 0 when the single hardware
attempt fails, so a legitimate hardware result of 0 yields the same return
value as a failure. -/
theorem gen_returns_zero_on_failure :
    truernd_gen32 none = 0 ∧ truernd_gen64 none = 0 ∧
    truernd_gen32 (some 0) = truernd_gen32 none ∧
    truernd_gen64 (some 0) = truernd_gen64 none :=
  ⟨rfl, rfl, rfl, rfl⟩

/-- C9: a 20-byte fill with a never-failing generator consumes exactly three
generator words — two full 8-byte extractions, then a partial extraction of
the 4 lowest-order bytes of the third word — and writes exactly those 20
bytes and nothing more. -/
theorem fill_20_consumes_three_words (w : Nat → Nat) :
    truernd_fill false 20 (fun i => some (w i))
      = (0, extractBytes (w 0) 8 ++ (extractBytes (w 1) 8 ++ extractBytes (w 2) 4), 3) ∧
    (extractBytes (w 0) 8 ++ (extractBytes (w 1) 8 ++ extractBytes (w 2) 4)).length = 20 := by
  constructor
  · rw [truernd_fill_pos 20 (by norm_num),
      fillLoop_neverfail (fun i => some (w i)) w (fun _ => rfl) 20 0 [], List.nil_append]
    have h20 : (20 : Nat) = 8 + 12 := by norm_num
    have h12 : (12 : Nat) = 8 + 4 := by norm_num
    rw [h20, fillBytes_split, h12, fillBytes_split]
    norm_num [numWords]
    rw [fillBytes_small w 2 4 (by norm_num)]
  · simp [List.length_append, extractBytes_length]

/-- C10: when `truernd_fill` aborts because the retry budget is exhausted on
chunk k (k ≥ 1, counting from 0), the first 8k bytes of the destination have
already been overwritten with generator output and are not rolled back: the
bytes written are exactly the extraction of words 0..k-1 and they persist in
the caller's buffer alongside the -1 return. -/
theorem fill_aborted_keeps_written_bytes (k len : Nat) (w : Nat → Nat)
    (_hk : 1 ≤ k) (hlen : 8 * k < len) :
    truernd_fill false len (fun i => if i < k then some (w i) else none)
      = (-1, fillBytes w 0 (8 * k), k + TRUERND_MAX_RETRIES) ∧
    (fillBytes w 0 (8 * k)).length = 8 * k := by
  constructor
  · rw [truernd_fill_pos len (by omega)]
    have hres := fillLoop_budget_exhausted (fun i => if i < k then some (w i) else none) w k
      (fun i hi => by simp [hi]) (fun i hi => by simp [Nat.not_lt.mpr hi]) len 0 []
      (by omega) (by omega)
    rw [hres, List.nil_append, Nat.sub_zero]
  · exact fillBytes_length w 0 (8 * k)

theorem fill_aborted_keeps_written_bytes_witness :
    truernd_fill false 9 (fun i => if i < 1 then some 0 else none)
      = (-1, fillBytes (fun _ => 0) 0 (8 * 1), 1 + TRUERND_MAX_RETRIES) ∧
    (fillBytes (fun _ => 0) 0 (8 * 1)).length = 8 * 1 :=
  fill_aborted_keeps_written_bytes 1 9 (fun _ => 0) (le_refl 1) (by norm_num)

end TrueRandom
